import Mathlib

/-
  Verification development for the nanolog engine.

  Shallow embedding of the ingestion / storage / query core:
  the NanoQL filter language (lexer, parser, evaluator), the MemTable
  search path, the segment writer and reader, ExecuteScan, the histogram,
  the cluster aggregator, the WAL replay loop, and the ingest/flush
  state machine.  Go strings are modelled as Lean strings restricted to
  their character data; Go int64 values are modelled as Int (no claim
  below exercises 64-bit overflow); Go byte values as Nat.
-/

namespace NL

/-- Model of Go strings.ToLower, ASCII folding on the character data. -/
def goToLower (s : String) : String := String.mk (s.data.map Char.toLower)

/-- Model of Go strings.ToUpper, ASCII folding on the character data. -/
def goToUpper (s : String) : String := String.mk (s.data.map Char.toUpper)

/-- Contiguous-sublist search on character lists, the core of Go
strings.Contains: scan every suffix for the needle at its front. -/
def listContains : List Char → List Char → Bool
  | hay, needle =>
    match hay with
    | [] => needle.isEmpty
    | _ :: t => needle.isPrefixOf hay || listContains t needle

/-- Model of Go strings.Contains: substring (contiguous) containment. -/
def goContains (haystack needle : String) : Bool :=
  listContains haystack.data needle.data

/-- LogRow, from engine/log.go.  The optional trace id column is not
modelled: no claim below depends on it. -/
structure LogRow where
  timestamp : Int
  level : Nat
  service : String
  host : String
  message : String
deriving Repr, DecidableEq

/-- Filter, from engine/log.go. -/
structure Filter where
  MinTime : Int := 0
  MaxTime : Int := 0
  Level : Nat := 0
  Service : String := ""
  Host : String := ""
  Query : String := ""
deriving Repr, DecidableEq

/-- The zero value of Filter. -/
def zeroFilter : Filter := {}

def LevelDebug : Nat := 0
def LevelInfo : Nat := 1
def LevelWarn : Nat := 2
def LevelError : Nat := 3
def LevelFatal : Nat := 4
def LevelUnknown : Nat := 255

/-- EncodeLevel from engine/memtable.go: string level to code,
with the TRACE and SEVERE aliases and default UNKNOWN. -/
def EncodeLevel (l : String) : Nat :=
  let u := goToUpper l
  if u = "DEBUG" ∨ u = "TRACE" then LevelDebug
  else if u = "INFO" then LevelInfo
  else if u = "WARN" ∨ u = "WARNING" then LevelWarn
  else if u = "ERROR" then LevelError
  else if u = "FATAL" ∨ u = "SEVERE" then LevelFatal
  else LevelUnknown

/-- DecodeLevel from engine/memtable.go: code to string; note the
default branch returns INFO, not UNKNOWN. -/
def DecodeLevel (l : Nat) : String :=
  if l = LevelDebug then "DEBUG"
  else if l = LevelInfo then "INFO"
  else if l = LevelWarn then "WARN"
  else if l = LevelError then "ERROR"
  else if l = LevelFatal then "FATAL"
  else "INFO"

/-- levelToString from nanoql/match.go: code to string with UNKNOWN
for every code outside 0..4. -/
def levelToString (level : Nat) : String :=
  if level = 0 then "DEBUG"
  else if level = 1 then "INFO"
  else if level = 2 then "WARN"
  else if level = 3 then "ERROR"
  else if level = 4 then "FATAL"
  else "UNKNOWN"

/-- NanoQL AST, from nanoql/ast.go.  A Go interface value Node can be
nil; nil is modelled as the explicit constructor Node.nil. -/
inductive Node where
  | nil : Node
  | binary (op : String) (left right : Node) : Node
  | matchE (key value op : String) : Node
  | notE (expr : Node) : Node
deriving Repr, DecidableEq

/-- getFieldValue from nanoql/match.go, with field aliases. -/
def getFieldValue (key : String) (row : LogRow) : String :=
  let k := goToLower key
  if k = "service" ∨ k = "svc" then row.service
  else if k = "host" ∨ k = "ip" ∨ k = "hostname" then row.host
  else if k = "message" ∨ k = "msg" then row.message
  else if k = "level" ∨ k = "lvl" then levelToString row.level
  else if k = "timestamp" ∨ k = "ts" then toString row.timestamp
  else ""

/-- matchEqual from nanoql/match.go: case-insensitive equality
(strings.EqualFold, modelled as equality of lower-cased data). -/
def matchEqual (fieldValue queryValue : String) : Bool :=
  goToLower fieldValue == goToLower queryValue

/-- containsIgnoreCase from nanoql/match.go. -/
def containsIgnoreCase (haystack needle : String) : Bool :=
  goContains (goToLower haystack) (goToLower needle)

/-- matchFullText from nanoql/match.go: CONTAINS over service, host,
message and the level string. -/
def matchFullText (query : String) (row : LogRow) : Bool :=
  let q := goToLower query
  [row.service, row.host, row.message, levelToString row.level].any
    (fun f => goContains (goToLower f) q)

/-- evalMatch from nanoql/match.go. -/
def evalMatch (key value op : String) (row : LogRow) : Bool :=
  if key = "" then matchFullText value row
  else
    let fieldValue := getFieldValue key row
    if op = "=" then matchEqual fieldValue value
    else if op = "!=" then !matchEqual fieldValue value
    else if op = "CONTAINS" then containsIgnoreCase fieldValue value
    else matchEqual fieldValue value

/-- Match from nanoql/match.go; a nil node matches everything, and
evalBinary is inlined for the binary case (unknown operators yield
false, as in the source default branch). -/
def Match : Node → LogRow → Bool
  | .nil, _ => true
  | .binary op l r, row =>
      let lv := Match l row
      let rv := Match r row
      if op = "AND" then lv && rv
      else if op = "OR" then lv || rv
      else false
  | .matchE k v op, row => evalMatch k v op row
  | .notE e, row => !Match e row

/-- Token types, from nanoql/lexer.go. -/
inductive TokenType where
  | eof | ident | str | colon | lparen | rparen | andT | orT | notT | neq
deriving Repr, DecidableEq

/-- Token, from nanoql/lexer.go. -/
structure Token where
  type : TokenType
  value : String
deriving Repr, DecidableEq

def isIdentStart (c : Char) : Bool := c.isAlpha || c = '_'

def isIdentChar (c : Char) : Bool :=
  c.isAlpha || c.isDigit || c = '_' || c = '-' || c = '.'

/-- Body of readString from nanoql/lexer.go, applied after the opening
quote: the value is the raw slice up to the closing quote, with a
backslash skipping the following character (kept verbatim). -/
def readStringBody : List Char → List Char × List Char
  | [] => ([], [])
  | c :: rest =>
    if c = '"' then ([], rest)
    else if c = '\\' then
      match rest with
      | [] => ([c], [])
      | d :: rest2 =>
        let (v, r) := readStringBody rest2
        (c :: d :: v, r)
    else
      let (v, r) := readStringBody rest
      (c :: v, r)

/-- readIdent from nanoql/lexer.go: take the identifier span and map
keywords; note that at a position whose character is not an identifier
character this produces an empty identifier without advancing. -/
def readIdentTok (cs : List Char) : Token × List Char :=
  let value := String.mk (cs.takeWhile isIdentChar)
  let rest := cs.dropWhile isIdentChar
  let upper := goToUpper value
  if upper = "AND" then (⟨.andT, upper⟩, rest)
  else if upper = "OR" then (⟨.orT, upper⟩, rest)
  else if upper = "NOT" then (⟨.notT, upper⟩, rest)
  else (⟨.ident, value⟩, rest)

/-- NextToken from nanoql/lexer.go, on the remaining character list. -/
def nextToken (cs : List Char) : Token × List Char :=
  match cs with
  | [] => (⟨.eof, ""⟩, [])
  | c :: rest =>
    if c.isWhitespace then nextToken rest
    else if c = ':' then (⟨.colon, ":"⟩, rest)
    else if c = '(' then (⟨.lparen, "("⟩, rest)
    else if c = ')' then (⟨.rparen, ")"⟩, rest)
    else if c = '!' then
      match rest with
      | '=' :: rest2 => (⟨.neq, "!="⟩, rest2)
      | _ => readIdentTok cs
    else if c = '"' then
      let (v, r) := readStringBody rest
      (⟨.str, String.mk v⟩, r)
    else if isIdentStart c then readIdentTok cs
    else nextToken rest

/-- Parser state: the current token and the unread characters. -/
structure PState where
  cur : Token
  rest : List Char
deriving Repr, DecidableEq

/-- Parser.advance from nanoql/parser.go. -/
def pAdvance (s : PState) : PState :=
  let (t, r) := nextToken s.rest
  ⟨t, r⟩

/-- parseValue from nanoql/parser.go. -/
def parseValue (key op : String) (s : PState) : Except String (Node × PState) :=
  match s.cur.type with
  | .str => .ok (.matchE key s.cur.value op, pAdvance s)
  | .ident => .ok (.matchE key s.cur.value op, pAdvance s)
  | _ => .error "expected value"

/-
  The recursive-descent parser from nanoql/parser.go.  The Go parser
  terminates on every input, but its lexer can report the same position
  twice (an empty identifier at a stray exclamation mark), so the Lean
  embedding uses an explicit fuel argument; Parse below supplies fuel
  that is never exhausted on inputs whose parse terminates by consuming
  tokens, and every concrete evaluation in the theorems stays far below
  the bound.
-/
mutual

def parseOr : Nat → PState → Except String (Node × PState)
  | 0, _ => .error "fuel exhausted"
  | fuel + 1, s =>
    match parseAnd fuel s with
    | .error e => .error e
    | .ok (left, s1) => parseOrRest fuel left s1

def parseOrRest : Nat → Node → PState → Except String (Node × PState)
  | 0, _, _ => .error "fuel exhausted"
  | fuel + 1, left, s =>
    if s.cur.type = .orT then
      match parseAnd fuel (pAdvance s) with
      | .error e => .error e
      | .ok (right, s1) => parseOrRest fuel (.binary "OR" left right) s1
    else .ok (left, s)

def parseAnd : Nat → PState → Except String (Node × PState)
  | 0, _ => .error "fuel exhausted"
  | fuel + 1, s =>
    match parseNot fuel s with
    | .error e => .error e
    | .ok (left, s1) => parseAndRest fuel left s1

def parseAndRest : Nat → Node → PState → Except String (Node × PState)
  | 0, _, _ => .error "fuel exhausted"
  | fuel + 1, left, s =>
    if s.cur.type = .andT then
      match parseNot fuel (pAdvance s) with
      | .error e => .error e
      | .ok (right, s1) => parseAndRest fuel (.binary "AND" left right) s1
    else .ok (left, s)

def parseNot : Nat → PState → Except String (Node × PState)
  | 0, _ => .error "fuel exhausted"
  | fuel + 1, s =>
    if s.cur.type = .notT then
      match parseNot fuel (pAdvance s) with
      | .error e => .error e
      | .ok (expr, s1) => .ok (.notE expr, s1)
    else parsePrimary fuel s

def parsePrimary : Nat → PState → Except String (Node × PState)
  | 0, _ => .error "fuel exhausted"
  | fuel + 1, s =>
    match s.cur.type with
    | .lparen =>
      match parseOr fuel (pAdvance s) with
      | .error e => .error e
      | .ok (expr, s1) =>
        if s1.cur.type = .rparen then .ok (expr, pAdvance s1)
        else .error "expected closing paren"
    | .str => .ok (.matchE "" s.cur.value "CONTAINS", pAdvance s)
    | .ident =>
      let key := s.cur.value
      let s1 := pAdvance s
      if s1.cur.type = .colon then parseValue key "=" (pAdvance s1)
      else if s1.cur.type = .neq then parseValue key "!=" (pAdvance s1)
      else .ok (.matchE "" key "CONTAINS", s1)
    | .eof => .ok (.nil, s)
    | _ => .error "unexpected token"

end

/-- Parse from nanoql/parser.go: empty input parses to the nil node
without touching the lexer; otherwise run parseOr from the first
token.  Trailing unconsumed tokens are ignored, as in the source. -/
def Parse (input : String) : Except String Node :=
  if input = "" then .ok .nil
  else
    let s0 := pAdvance ⟨⟨.eof, ""⟩, input.data⟩
    match parseOr (4 * input.length + 8) s0 with
    | .error e => .error e
    | .ok (n, _) => .ok n

/-- MemTable, from engine/memtable.go: columnar buffer.  The trace id
column is not modelled (no claim depends on it); SizeBytes is derived
from the columns where needed. -/
structure MemTable where
  TsCol : List Int
  LvlCol : List Nat
  SvcCol : List String
  HostCol : List String
  MsgCol : List String
deriving Repr, DecidableEq

/-- Zip the five columns into logical rows (the i-th element of each
column is one row; the engine keeps the columns at equal length). -/
def rowsZip : List Int → List Nat → List String → List String → List String → List LogRow
  | t :: ts, l :: ls, s :: ss, h :: hs, m :: ms =>
    ⟨t, l, s, h, m⟩ :: rowsZip ts ls ss hs ms
  | _, _, _, _, _ => []

def mtRows (mt : MemTable) : List LogRow :=
  rowsZip mt.TsCol mt.LvlCol mt.SvcCol mt.HostCol mt.MsgCol

/-- Row time-pruning lower-bound test used by MemTable search and the
file iterator: a row is excluded by the lower bound only when MinTime
is positive. -/
def timeLowExcl (f : Filter) (ts : Int) : Bool :=
  f.MinTime > 0 && ts < f.MinTime

/-- Row time-pruning upper-bound test: symmetric to timeLowExcl. -/
def timeHighExcl (f : Filter) (ts : Int) : Bool :=
  f.MaxTime > 0 && ts > f.MaxTime

/-- Per-row test of MemTable.SearchWithNanoQL from engine/memtable.go:
time pruning first, then the NanoQL node if present (a non-nil node
replaces the legacy scalar filters), else the legacy filters with the
raw query as a case-sensitive substring of the message. -/
def memPass (f : Filter) (node : Node) (r : LogRow) : Bool :=
  if timeLowExcl f r.timestamp then false
  else if timeHighExcl f r.timestamp then false
  else if node ≠ .nil then Match node r
  else if f.Level > 0 ∧ r.level ≠ f.Level then false
  else if f.Service ≠ "" ∧ r.service ≠ f.Service then false
  else if f.Host ≠ "" ∧ r.host ≠ f.Host then false
  else if f.Query ≠ "" ∧ ¬goContains r.message f.Query then false
  else true

/-- The scan loop of SearchWithNanoQL: newest-first traversal with the
limit checked before each row; a non-positive limit is unbounded. -/
def searchGo (f : Filter) (node : Node) (limit : Int) (acc : List LogRow) :
    List LogRow → List LogRow
  | [] => acc
  | r :: rest =>
    if limit > 0 ∧ (acc.length : Int) ≥ limit then acc
    else if memPass f node r then searchGo f node limit (acc ++ [r]) rest
    else searchGo f node limit acc rest

/-- SearchWithNanoQL from engine/memtable.go: scan rows newest first. -/
def SearchWithNanoQL (mt : MemTable) (f : Filter) (node : Node) (limit : Int) :
    List LogRow :=
  searchGo f node limit [] (mtRows mt).reverse

/-- Last element of the timestamp column (tsData at rowCount - 1 in
storage/writer.go), with the source's zero for the empty case. -/
def goLast : List Int → Int
  | [] => 0
  | [a] => a
  | _ :: b :: t => goLast (b :: t)

/-- On-disk segment content: footer fields and the four stored columns
(the writer stores timestamps, levels, services, messages; hosts are
not persisted). -/
structure FileData where
  rowCount : Nat
  minTs : Int
  maxTs : Int
  timestamps : List Int
  levels : List Nat
  services : List String
  messages : List String
deriving Repr, DecidableEq

/-- WriteSnapshot from storage/writer.go: the footer minTs is the FIRST
row timestamp and maxTs the LAST row timestamp (not the true extrema);
an empty MemTable produces a header-and-footer-only file. -/
def WriteSnapshot (mt : MemTable) : FileData :=
  if mt.TsCol.length = 0 then ⟨0, 0, 0, [], [], [], []⟩
  else
    ⟨mt.TsCol.length, mt.TsCol.headD 0, goLast mt.TsCol,
     mt.TsCol, mt.LvlCol, mt.SvcCol, mt.MsgCol⟩

/-- Footer-based whole-file pruning test of FileIterator.init in
storage/reader.go, also the filename-based pruning test of
ExecuteScan: each bound prunes only when positive. -/
def fileSkip (f : Filter) (minTs maxTs : Int) : Bool :=
  (f.MinTime > 0 && maxTs < f.MinTime) || (f.MaxTime > 0 && minTs > f.MaxTime)

/-- Rows of a segment file as yielded by the iterator cursor: the four
stored columns zipped (host comes back empty), bounded by the footer
row count. -/
def fileRows (fd : FileData) : List LogRow :=
  (rowsZip fd.timestamps fd.levels fd.services
    (fd.timestamps.map (fun _ => "")) fd.messages).take fd.rowCount

/-- Per-row filter of FileIterator.Next from storage/reader.go: time
bounds, level, service and the raw query as a case-sensitive substring
of the message; the host filter is not applied on this path. -/
def filePass (f : Filter) (r : LogRow) : Bool :=
  if timeLowExcl f r.timestamp then false
  else if timeHighExcl f r.timestamp then false
  else if f.Level > 0 ∧ r.level ≠ f.Level then false
  else if f.Service ≠ "" ∧ r.service ≠ f.Service then false
  else if f.Query ≠ "" ∧ ¬goContains r.message f.Query then false
  else true

/-- ReadSnapshot via FileIterator from storage/reader.go: skip the
whole file when the footer range misses the positive filter bounds
(only for a positive row count), else yield every row passing the
per-row filter. -/
def ScanFile (fd : FileData) (f : Filter) : List LogRow :=
  if fd.rowCount > 0 ∧ fileSkip f fd.minTs fd.maxTs then []
  else (fileRows fd).filter (filePass f)

/-- A data-directory entry for ExecuteScan: the timestamps parsed from
the filename (none when the name does not parse) and the file content.
ExecuteScan sorts filenames descending before the loop; the model takes
the list already in that order, which no claim depends on. -/
structure NamedFile where
  fname : Option (Int × Int)
  data : FileData
deriving Repr, DecidableEq

/-- The disk loop of QueryEngine.ExecuteScan from engine/query_engine.go:
filename-level pruning, read through the segment reader, then the
NanoQL node applied to the returned rows, appending up to the limit. -/
def scanDisk (node : Node) (f : Filter) (limit : Int) (acc : List LogRow) :
    List NamedFile → List LogRow
  | [] => acc
  | file :: rest =>
    if (acc.length : Int) ≥ limit then acc
    else
      let skip := match file.fname with
        | some (mn, mx) => fileSkip f mn mx
        | none => false
      if skip then scanDisk node f limit acc rest
      else
        let rows := ScanFile file.data f
        let rows := if node ≠ .nil then rows.filter (Match node) else rows
        let remaining := limit - (acc.length : Int)
        let rows2 :=
          if (rows.length : Int) ≤ remaining then rows else rows.take remaining.toNat
        scanDisk node f limit (acc ++ rows2) rest

/-- QueryEngine.ExecuteScan from engine/query_engine.go: parse the
query (empty query means no node), report a parse failure as an error,
else scan the MemTable and then the segment files up to the limit. -/
def ExecuteScan (mem : MemTable) (files : List NamedFile) (f : Filter)
    (limit : Int) : Except String (List LogRow) :=
  match (if f.Query = "" then Except.ok Node.nil else Parse f.Query) with
  | .error e => .error e
  | .ok node =>
    let result := SearchWithNanoQL mem f node limit
    if (result.length : Int) ≥ limit then .ok result
    else .ok (scanDisk node f limit result files)

/-- Scalar-filter test of the MemTable loop in ComputeHistogram from
engine/histogram.go: level, service and host are checked; the query
branch of the source sets nothing, so the raw query is NOT applied to
MemTable rows. -/
def histMemMatch (f : Filter) (r : LogRow) : Bool :=
  if f.Level > 0 ∧ r.level ≠ f.Level then false
  else if f.Service ≠ "" ∧ r.service ≠ f.Service then false
  else if f.Host ≠ "" ∧ r.host ≠ f.Host then false
  else true

/-- Bucket assignment of ComputeHistogram: Go integer division
truncates toward zero, which is Int.tdiv. -/
def bucketOf (ts interval : Int) : Int := (Int.tdiv ts interval) * interval

/-- Turn the multiset of bucket keys into the sorted point list the
source builds from its map (keys are distinct, so sorting by time is
deterministic). -/
def histPoints (bs : List Int) : List (Int × Nat) :=
  (List.insertionSort (fun a b => a ≤ b) bs.dedup).map (fun t => (t, bs.count t))

/-- QueryEngine.ComputeHistogram from engine/histogram.go: bucket the
MemTable rows inside the window that pass the scalar filters, then the
rows each segment reader yields for the filter, and return the counts
sorted ascending by bucket time.  The histogram path does no
filename-level pruning; it relies on the footer pruning in the reader. -/
def ComputeHistogram (start endT interval : Int) (f : Filter)
    (mem : MemTable) (files : List FileData) : List (Int × Nat) :=
  let memBuckets :=
    ((mtRows mem).filter
      (fun r => !(r.timestamp < start) && !(r.timestamp > endT) && histMemMatch f r)).map
      (fun r => bucketOf r.timestamp interval)
  let diskBuckets :=
    (files.map (fun fd =>
      ((ScanFile fd f).filter
        (fun r => !(r.timestamp < start) && !(r.timestamp > endT))).map
        (fun r => bucketOf r.timestamp interval))).flatten
  histPoints (memBuckets ++ diskBuckets)

/-- The sort relation of Aggregator.Search from cluster/aggregator.go:
descending by timestamp, and by timestamp only. -/
def aggRel (a b : LogRow) : Prop := b.timestamp ≤ a.timestamp

instance : DecidableRel aggRel := fun a b => Int.decLe b.timestamp a.timestamp

instance : IsTotal LogRow aggRel :=
  ⟨fun a b => le_total b.timestamp a.timestamp⟩

instance : IsTrans LogRow aggRel :=
  ⟨fun _ _ _ h1 h2 => le_trans h2 h1⟩

/-- Aggregator.Search from cluster/aggregator.go, as a function of the
peer responses in arrival order: concatenate, sort descending by
timestamp (a comparison that looks at nothing but the timestamp), and
truncate to the limit. -/
def AggSearch (resps : List (List LogRow)) (limit : Nat) : List LogRow :=
  let all := resps.flatten
  let sorted := List.insertionSort aggRel all
  if all.length > limit then sorted.take limit else sorted

/-- Estimated row size from MemTable.Append: message, service and host
bytes plus 8 for the timestamp and 1 for the level. -/
def rowSize (r : LogRow) : Nat :=
  r.message.length + r.service.length + r.host.length + 8 + 1

def memSize (l : List LogRow) : Nat := (l.map rowSize).sum

/-- Engine state for the ingest/flush interleaving: the WAL content as
replayable rows, the current MemTable rows, the swapped-out tables
whose background flush has not completed, and the sealed segments. -/
structure EngState where
  wal : List LogRow
  mem : List LogRow
  pending : List (List LogRow)
  segs : List (List LogRow)
deriving Repr, DecidableEq

/-- One engine event: an Ingest call, or the completion of a background
flush. -/
inductive EngStep where
  | ingest (r : LogRow)
  | bgFlush
deriving Repr, DecidableEq

/-- Step function mirroring QueryEngine.Ingest and
QueryEngine.flushMemTable from engine/query_engine.go.  Ingest appends
to the WAL then the MemTable and, at the size threshold, swaps in an
empty table and leaves the old one to a background flush.  A completed
background flush of a non-empty table appends its segment and then
calls WAL.Reset, which truncates the WHOLE WAL file, including records
of rows ingested after the swap. -/
def stepEng (maxSize : Nat) (s : EngState) : EngStep → EngState
  | .ingest r =>
    let wal := s.wal ++ [r]
    let mem := s.mem ++ [r]
    if memSize mem ≥ maxSize then ⟨wal, [], s.pending ++ [mem], s.segs⟩
    else ⟨wal, mem, s.pending, s.segs⟩
  | .bgFlush =>
    match s.pending with
    | [] => s
    | t :: rest =>
      if t.length = 0 then ⟨s.wal, s.mem, rest, s.segs⟩
      else ⟨[], s.mem, rest, s.segs ++ [t]⟩

def runEng (maxSize : Nat) (steps : List EngStep) : EngState :=
  steps.foldl (stepEng maxSize) ⟨[], [], [], []⟩

/-- The rows for which Ingest returned during a trace. -/
def ingested (steps : List EngStep) : List LogRow :=
  steps.filterMap (fun st => match st with | .ingest r => some r | _ => none)

/-- Durability of a row in a state: recoverable from the WAL or present
in a sealed segment. -/
def durable (s : EngState) (r : LogRow) : Bool :=
  s.wal.contains r || s.segs.flatten.contains r

/-- Little-endian uint32 of four bytes, as in WAL record length
prefixes. -/
def le32 : List Nat → Nat
  | [b0, b1, b2, b3] => b0 + 256 * (b1 + 256 * (b2 + 256 * b3))
  | _ => 0

/-- The read loop of WAL.Replay from engine/wal.go over the file bytes,
parameterised by the record payload decoder (JSON in the source).
Reading exactly at a record boundary ends cleanly (true); a partial
length prefix, a partial payload or an undecodable payload stops with
an error (false) after the rows already read.  The fuel argument only
bounds the iteration count; every iteration consumes at least four
bytes, so Replay below supplies fuel that is never exhausted. -/
def replayGo (decode : List Nat → Option LogRow) :
    Nat → List Nat → List LogRow × Bool
  | 0, _ => ([], false)
  | _ + 1, [] => ([], true)
  | fuel + 1, b :: bs =>
    if (b :: bs).length < 4 then ([], false)
    else
      let len := le32 ((b :: bs).take 4)
      let rest := (b :: bs).drop 4
      if rest.length < len then ([], false)
      else
        match decode (rest.take len) with
        | none => ([], false)
        | some row =>
          let (rs, ok) := replayGo decode fuel (rest.drop len)
          (row :: rs, ok)

/-- WAL.Replay from engine/wal.go: run the read loop with enough fuel
for the whole byte list. -/
def Replay (decode : List Nat → Option LogRow) (bs : List Nat) :
    List LogRow × Bool :=
  replayGo decode (bs.length + 1) bs

/-- The crash-recovery block of NewQueryEngine from
engine/query_engine.go: the replayed rows are appended to the initial
MemTable ONLY when Replay returned no error; re-appending goes through
DecodeLevel and EncodeLevel. -/
def recoverStartup (decode : List Nat → Option LogRow) (bs : List Nat) :
    List LogRow :=
  let (rows, ok) := Replay decode bs
  if ok ∧ rows.length > 0 then
    rows.map (fun r => { r with level := EncodeLevel (DecodeLevel r.level) })
  else []

/-- Payload codec used by the concrete WAL theorems: a one-byte tag
standing in for the JSON row payload of the source. -/
def decodeTag : List Nat → Option LogRow
  | [n] => some ⟨(n : Int), 1, "s", "h", "m"⟩
  | _ => none

/-- Two strings that agree up to ASCII case. -/
def strCaseEq (a b : String) : Bool := goToLower a == goToLower b

/-- Two rows that agree up to ASCII case of their string fields. -/
def rowCaseEq (r r2 : LogRow) : Bool :=
  r.timestamp == r2.timestamp && r.level == r2.level &&
  strCaseEq r.service r2.service && strCaseEq r.host r2.host &&
  strCaseEq r.message r2.message

/-- Two NanoQL nodes of the same shape whose keys and values agree up
to ASCII case (operators must agree exactly). -/
def nodeCaseEq : Node → Node → Bool
  | .nil, .nil => true
  | .binary op l r, .binary op2 l2 r2 =>
    op == op2 && nodeCaseEq l l2 && nodeCaseEq r r2
  | .matchE k v op, .matchE k2 v2 op2 =>
    strCaseEq k k2 && strCaseEq v v2 && op == op2
  | .notE e, .notE e2 => nodeCaseEq e e2
  | _, _ => false

/-
  Helper lemmas.
-/

theorem goToLower_eq_empty_iff (s : String) : goToLower s = "" ↔ s = "" := by
  cases s
  simp [goToLower, String.ext_iff]

theorem rowCaseEq_fields {r r2 : LogRow} (hr : rowCaseEq r r2 = true) :
    r.timestamp = r2.timestamp ∧ r.level = r2.level ∧
    goToLower r.service = goToLower r2.service ∧
    goToLower r.host = goToLower r2.host ∧
    goToLower r.message = goToLower r2.message := by
  simpa [rowCaseEq, strCaseEq, Bool.and_eq_true, and_assoc] using hr

theorem matchEqual_congr {a a2 b b2 : String} (h1 : goToLower a = goToLower a2)
    (h2 : goToLower b = goToLower b2) : matchEqual a b = matchEqual a2 b2 := by
  simp [matchEqual, h1, h2]

theorem containsIgnoreCase_congr {a a2 b b2 : String}
    (h1 : goToLower a = goToLower a2) (h2 : goToLower b = goToLower b2) :
    containsIgnoreCase a b = containsIgnoreCase a2 b2 := by
  simp [containsIgnoreCase, h1, h2]

theorem matchFullText_congr {v v2 : String} {r r2 : LogRow}
    (hv : goToLower v = goToLower v2) (hr : rowCaseEq r r2 = true) :
    matchFullText v r = matchFullText v2 r2 := by
  obtain ⟨hts, hlvl, hsvc, hhost, hmsg⟩ := rowCaseEq_fields hr
  simp [matchFullText, hv, hsvc, hhost, hmsg, hlvl]

theorem getFieldValue_congr {k k2 : String} {r r2 : LogRow}
    (hk : goToLower k = goToLower k2) (hr : rowCaseEq r r2 = true) :
    goToLower (getFieldValue k r) = goToLower (getFieldValue k2 r2) := by
  obtain ⟨hts, hlvl, hsvc, hhost, hmsg⟩ := rowCaseEq_fields hr
  unfold getFieldValue
  rw [hk]
  dsimp only
  split_ifs <;> simp [hts, hlvl, hsvc, hhost, hmsg]

theorem evalMatch_congr {k k2 v v2 : String} (op : String) {r r2 : LogRow}
    (hk : goToLower k = goToLower k2) (hv : goToLower v = goToLower v2)
    (hr : rowCaseEq r r2 = true) :
    evalMatch k v op r = evalMatch k2 v2 op r2 := by
  by_cases hke : k = ""
  · have hk2e : k2 = "" := by
      rw [← goToLower_eq_empty_iff, ← hk, hke]
      rfl
    subst hke
    subst hk2e
    simp only [evalMatch, if_pos rfl]
    exact matchFullText_congr hv hr
  · have hk2e : k2 ≠ "" := by
      intro h0
      exact hke (by rw [← goToLower_eq_empty_iff, hk, h0]; rfl)
    have hf := getFieldValue_congr hk hr
    simp only [evalMatch, if_neg hke, if_neg hk2e]
    split_ifs with h1 h2 h3
    · exact matchEqual_congr hf hv
    · simp [matchEqual_congr hf hv]
    · exact containsIgnoreCase_congr hf hv
    · exact matchEqual_congr hf hv

theorem memPass_zero (r : LogRow) : memPass zeroFilter .nil r = true := by
  simp [memPass, timeLowExcl, timeHighExcl, zeroFilter]

theorem filePass_zero (r : LogRow) : filePass zeroFilter r = true := by
  simp [filePass, timeLowExcl, timeHighExcl, zeroFilter]

theorem searchGo_all {f : Filter} {node : Node}
    (hp : ∀ r, memPass f node r = true) :
    ∀ (l : List LogRow) (acc : List LogRow), searchGo f node 0 acc l = acc ++ l := by
  intro l
  induction l with
  | nil => intro acc; simp [searchGo]
  | cons r rest ih =>
    intro acc
    simp [searchGo, hp r, ih (acc ++ [r])]

theorem headD_le_of_sorted {l : List Int} (h : l.Sorted (· ≤ ·)) {x : Int}
    (hx : x ∈ l) : l.headD 0 ≤ x := by
  cases l with
  | nil => cases hx
  | cons a t =>
    rcases List.mem_cons.mp hx with rfl | hx2
    · simp
    · simpa using List.rel_of_sorted_cons h x hx2

theorem le_goLast_of_sorted :
    ∀ (l : List Int), l.Sorted (· ≤ ·) → ∀ x ∈ l, x ≤ goLast l
  | [], _, x, hx => by cases hx
  | [a], _, x, hx => by
    simp at hx
    simp [goLast, hx]
  | a :: b :: t, h, x, hx => by
    have hab : a ≤ b := List.rel_of_sorted_cons h b (by simp)
    have ht : (b :: t).Sorted (· ≤ ·) := h.of_cons
    have hb := le_goLast_of_sorted (b :: t) ht b (by simp)
    show x ≤ goLast (b :: t)
    rcases List.mem_cons.mp hx with rfl | hx2
    · exact le_trans hab hb
    · exact le_goLast_of_sorted (b :: t) ht x hx2

/-
  Claim theorems.
-/

/-- Claim C1 (code bug, evaluated at the failing trace): after a row
fills the MemTable to the threshold and is swapped out for a background
flush, a second row is ingested (WAL append plus MemTable append), and
then the background flush completes and calls WAL.Reset.  The reset
truncates the whole WAL, so the second ingested row is neither
recoverable from the WAL nor present in any sealed segment, violating
the durability invariant the claim states; only the first row is
durable. -/
theorem c1_wal_reset_drops_unflushed_row :
    (⟨2, 1, "", "", ""⟩ : LogRow) ∈
      ingested [.ingest ⟨1, 1, "", "", "x"⟩, .ingest ⟨2, 1, "", "", ""⟩, .bgFlush] ∧
    durable (runEng 10 [.ingest ⟨1, 1, "", "", "x"⟩, .ingest ⟨2, 1, "", "", ""⟩, .bgFlush])
      ⟨2, 1, "", "", ""⟩ = false ∧
    durable (runEng 10 [.ingest ⟨1, 1, "", "", "x"⟩, .ingest ⟨2, 1, "", "", ""⟩, .bgFlush])
      ⟨1, 1, "", "", "x"⟩ = true := by
  decide

/-- Claim C2 (code bug, evaluated at the failing input): on a WAL whose
final record is truncated (here a two-byte partial length prefix after
one complete record), Replay does return the complete preceding row
together with an error, but NewQueryEngine appends the replayed rows
only when Replay returned no error, so the recovered rows are discarded
and the initial MemTable stays empty.  The third conjunct shows the
clean-boundary case, where the row does reach the MemTable. -/
theorem c2_truncated_wal_rows_discarded_at_startup :
    Replay decodeTag [1, 0, 0, 0, 7, 2, 0] = ([⟨7, 1, "s", "h", "m"⟩], false) ∧
    recoverStartup decodeTag [1, 0, 0, 0, 7, 2, 0] = [] ∧
    recoverStartup decodeTag [1, 0, 0, 0, 7] = [⟨7, 1, "s", "h", "m"⟩] := by
  decide

/-- Claim C3 counterexample: sealing the MemTable whose timestamp
column is the out-of-order [10, 5] records footer minTs 10 and maxTs 5,
and the row with timestamp 5 lies outside [minTs, maxTs], so the
recorded times do not bound all rows inside. -/
theorem c3_counterexample_footer_not_bounding :
    (WriteSnapshot ⟨[10, 5], [1, 1], ["a", "a"], ["h", "h"], ["m", "m"]⟩).minTs = 10 ∧
    (5 : Int) ∈ (⟨[10, 5], [1, 1], ["a", "a"], ["h", "h"], ["m", "m"]⟩ : MemTable).TsCol ∧
    ¬((WriteSnapshot ⟨[10, 5], [1, 1], ["a", "a"], ["h", "h"], ["m", "m"]⟩).minTs ≤ 5 ∧
      (5 : Int) ≤ (WriteSnapshot ⟨[10, 5], [1, 1], ["a", "a"], ["h", "h"], ["m", "m"]⟩).maxTs) := by
  decide

/-- Claim C3 as amended: the footer minTs and maxTs of a sealed segment
are the first and last row timestamps, so for a non-empty MemTable
whose timestamps are monotonically non-decreasing they bound every row
timestamp inside. -/
theorem c3_sorted_memtable_footer_bounds (mt : MemTable) (hne : mt.TsCol ≠ [])
    (hs : mt.TsCol.Sorted (· ≤ ·)) :
    ∀ ts ∈ mt.TsCol, (WriteSnapshot mt).minTs ≤ ts ∧ ts ≤ (WriteSnapshot mt).maxTs := by
  intro ts hts
  have hlen : ¬(mt.TsCol.length = 0) := fun h0 => hne (List.length_eq_zero.mp h0)
  unfold WriteSnapshot
  rw [if_neg hlen]
  exact ⟨headD_le_of_sorted hs hts, le_goLast_of_sorted mt.TsCol hs ts hts⟩

/-- Witness for the amended C3 theorem at a concrete sorted MemTable. -/
theorem c3_witness :
    (WriteSnapshot ⟨[1, 2], [1, 1], ["a", "a"], ["h", "h"], ["m", "m"]⟩).minTs ≤ 2 ∧
    (2 : Int) ≤ (WriteSnapshot ⟨[1, 2], [1, 1], ["a", "a"], ["h", "h"], ["m", "m"]⟩).maxTs :=
  c3_sorted_memtable_footer_bounds ⟨[1, 2], [1, 1], ["a", "a"], ["h", "h"], ["m", "m"]⟩
    (by decide) (by decide) 2 (by decide)

/-- Claim C4 counterexample: for a segment whose footer range is
[-10, -5] and the zero-value filter window a = 0, b = 0, the window
satisfies a > maxTs (0 > -5), yet the scan reads a row from the file,
because both pruning guards are disabled for non-positive bounds. -/
theorem c4_counterexample_zero_bound_reads_rows :
    zeroFilter.MinTime > (⟨1, -10, -5, [-7], [1], ["s"], ["m"]⟩ : FileData).maxTs ∧
    ScanFile ⟨1, -10, -5, [-7], [1], ["s"], ["m"]⟩ zeroFilter ≠ [] := by
  decide

/-- Claim C4 as amended: pruning is sound for positive bounds: if the
filter window [a, b] has a positive upper bound b below the footer
minTs, or a positive lower bound a above the footer maxTs, the scan
reads zero rows from the file. -/
theorem c4_pruning_sound_positive_bounds (f : Filter) (fd : FileData)
    (h : (0 < f.MaxTime ∧ f.MaxTime < fd.minTs) ∨
         (0 < f.MinTime ∧ fd.maxTs < f.MinTime)) :
    ScanFile fd f = [] := by
  have hskip : fileSkip f fd.minTs fd.maxTs = true := by
    simp only [fileSkip, Bool.or_eq_true, Bool.and_eq_true, decide_eq_true_eq]
    rcases h with ⟨h1, h2⟩ | ⟨h1, h2⟩
    · right
      exact ⟨h1, by omega⟩
    · left
      exact ⟨h1, h2⟩
  unfold ScanFile
  rcases Nat.eq_zero_or_pos fd.rowCount with h0 | hpos
  · rw [if_neg (by simp [h0])]
    simp [fileRows, h0]
  · rw [if_pos ⟨hpos, hskip⟩]

/-- Witness for the amended C4 theorem at a concrete file and filter. -/
theorem c4_witness :
    ScanFile ⟨1, 100, 200, [150], [1], ["s"], ["m"]⟩ { MaxTime := 7 } = [] :=
  c4_pruning_sound_positive_bounds { MaxTime := 7 } ⟨1, 100, 200, [150], [1], ["s"], ["m"]⟩
    (Or.inl ⟨by decide, by decide⟩)

/-- Claim C5 counterexample: for the bare-word query hello against a
row whose message is Hello World, the full scan finds the row in the
MemTable, but the same row stored in a segment is not returned, and
changing the case of the query to Hello makes the segment row appear:
the disk path pre-filters rows by the raw query as a CASE-SENSITIVE
substring of the message, so matching is not case-insensitive for
segment rows and MemTable and segment scans disagree. -/
theorem c5_counterexample_disk_case_sensitive :
    ExecuteScan ⟨[1], [1], ["s"], [""], ["Hello World"]⟩
      [⟨none, ⟨1, 1, 1, [1], [1], ["s"], ["Hello World"]⟩⟩]
      { Query := "hello" } 10 = .ok [⟨1, 1, "s", "", "Hello World"⟩] ∧
    ExecuteScan ⟨[], [], [], [], []⟩
      [⟨none, ⟨1, 1, 1, [1], [1], ["s"], ["Hello World"]⟩⟩]
      { Query := "hello" } 10 = .ok [] ∧
    ExecuteScan ⟨[], [], [], [], []⟩
      [⟨none, ⟨1, 1, 1, [1], [1], ["s"], ["Hello World"]⟩⟩]
      { Query := "Hello" } 10 = .ok [⟨1, 1, "s", "", "Hello World"⟩] := by
  refine ⟨?_, ?_, ?_⟩ <;> rfl

/-- Claim C5 as amended: the NanoQL evaluator itself is case-blind on
both sides: evaluating any two nodes of the same shape whose keys and
values agree up to case, against any two rows whose string fields agree
up to case, gives the same result for equality, inequality and
CONTAINS matches alike. -/
theorem c5_match_case_blind (n n2 : Node) (hn : nodeCaseEq n n2 = true)
    (r r2 : LogRow) (hr : rowCaseEq r r2 = true) : Match n r = Match n2 r2 := by
  induction n generalizing n2 with
  | nil => cases n2 <;> simp_all [nodeCaseEq, Match]
  | binary op l rgt ihl ihr =>
    cases n2 with
    | binary op2 l2 rr2 =>
      simp only [nodeCaseEq, Bool.and_eq_true, beq_iff_eq] at hn
      obtain ⟨⟨hop, hl⟩, hrr⟩ := hn
      subst hop
      simp only [Match]
      rw [ihl l2 hl, ihr rr2 hrr]
    | nil => simp [nodeCaseEq] at hn
    | matchE k2 v2 op2 => simp [nodeCaseEq] at hn
    | notE e2 => simp [nodeCaseEq] at hn
  | matchE k v op =>
    cases n2 with
    | matchE k2 v2 op2 =>
      simp only [nodeCaseEq, strCaseEq, Bool.and_eq_true, beq_iff_eq] at hn
      obtain ⟨⟨hk, hv⟩, hop⟩ := hn
      subst hop
      simp only [Match]
      exact evalMatch_congr op hk hv hr
    | nil => simp [nodeCaseEq] at hn
    | binary op2 l2 rr2 => simp [nodeCaseEq] at hn
    | notE e2 => simp [nodeCaseEq] at hn
  | notE e ih =>
    cases n2 with
    | notE e2 =>
      simp only [nodeCaseEq] at hn
      simp only [Match]
      rw [ih e2 hn]
    | nil => simp [nodeCaseEq] at hn
    | binary op2 l2 rr2 => simp [nodeCaseEq] at hn
    | matchE k2 v2 op2 => simp [nodeCaseEq] at hn

/-- Witness for the amended C5 theorem at a concrete node pair and row
pair differing only in case. -/
theorem c5_witness :
    Match (.matchE "service" "Order" "=") ⟨1, 1, "order", "h", "m"⟩ =
    Match (.matchE "SERVICE" "ORDER" "=") ⟨1, 1, "ORDER", "H", "M"⟩ :=
  c5_match_case_blind (.matchE "service" "Order" "=") (.matchE "SERVICE" "ORDER" "=")
    (by decide) ⟨1, 1, "order", "h", "m"⟩ ⟨1, 1, "ORDER", "H", "M"⟩ (by decide)

/-- Claim C6 (code bug, evaluated at the failing input): the MemTable
row with message abc does not contain the filter query zzz, yet
ComputeHistogram counts it (the query branch of the MemTable loop sets
nothing), so the histogram over [0, 10] with interval 10 returns one
count in bucket 0 where the claim requires zero counted rows. -/
theorem c6_histogram_counts_nonmatching_memtable_row :
    ComputeHistogram 0 10 10 { Query := "zzz" } ⟨[5], [1], ["svc"], ["h"], ["abc"]⟩ []
      = [(0, 1)] ∧
    goContains "abc" "zzz" = false := by
  decide

/-- Claim C7 counterexample: the engine conversion DecodeLevel sends
code 255 to INFO, not UNKNOWN, and re-encoding the result gives 1, so
255 does not round-trip and does not stringify as UNKNOWN wherever a
level is converted to a string. -/
theorem c7_counterexample_decode_level_unknown :
    DecodeLevel 255 ≠ "UNKNOWN" ∧ EncodeLevel (DecodeLevel 255) = 1 := by
  decide

/-- Claim C7 as amended: the NanoQL conversion levelToString yields the
spec names DEBUG, INFO, WARN, ERROR, FATAL, UNKNOWN for the six level
codes and EncodeLevel maps each name back to its code; the engine
conversion DecodeLevel, however, yields INFO for code 255. -/
theorem c7_level_names_roundtrip :
    (levelToString 0 = "DEBUG" ∧ EncodeLevel "DEBUG" = 0) ∧
    (levelToString 1 = "INFO" ∧ EncodeLevel "INFO" = 1) ∧
    (levelToString 2 = "WARN" ∧ EncodeLevel "WARN" = 2) ∧
    (levelToString 3 = "ERROR" ∧ EncodeLevel "ERROR" = 3) ∧
    (levelToString 4 = "FATAL" ∧ EncodeLevel "FATAL" = 4) ∧
    (levelToString 255 = "UNKNOWN" ∧ EncodeLevel "UNKNOWN" = 255) ∧
    DecodeLevel 255 = "INFO" := by
  decide

/-- Claim C8 counterexample: the query a AND ends in a dangling AND,
which is not derivable from the grammar, yet Parse returns no error:
the missing right operand parses as the nil node, and ExecuteScan
performs the scan (here over an empty MemTable and no files) instead of
reporting a syntax error. -/
theorem c8_counterexample_dangling_and_accepted :
    Parse "a AND" = .ok (.binary "AND" (.matchE "" "a" "CONTAINS") .nil) ∧
    ExecuteScan ⟨[], [], [], [], []⟩ [] { Query := "a AND" } 10 = .ok [] := by
  exact ⟨rfl, rfl⟩

/-- Claim C8 as amended: a nil AST matches every row and the empty
query parses to nil; genuinely rejected inputs such as a key with a
missing value do produce a parse error, which ExecuteScan reports to
the caller as an error rather than a result; but a trailing dangling
operator is accepted with a nil operand. -/
theorem c8_parse_errors_reported :
    (∀ r : LogRow, Match .nil r = true) ∧
    Parse "" = .ok .nil ∧
    Parse "service:" = .error "expected value" ∧
    (∀ (mem : MemTable) (files : List NamedFile) (limit : Int),
      ExecuteScan mem files { Query := "service:" } limit = .error "expected value") :=
  ⟨fun _ => rfl, rfl, rfl, fun _ _ _ => rfl⟩

/-- Claim C9 counterexample: two peer-response lists that are
permutations of each other (the same multiset of responses, arriving in
the two possible orders) with two rows of equal timestamp: the merged,
sorted, truncated outputs differ, because the sort compares only
timestamps and ties keep arrival order. -/
theorem c9_counterexample_tie_order_depends_on_arrival :
    ([[⟨1, 1, "a", "", "m1"⟩], [⟨1, 1, "b", "", "m2"⟩]] : List (List LogRow)).Perm
      [[⟨1, 1, "b", "", "m2"⟩], [⟨1, 1, "a", "", "m1"⟩]] ∧
    AggSearch [[⟨1, 1, "a", "", "m1"⟩], [⟨1, 1, "b", "", "m2"⟩]] 2 ≠
    AggSearch [[⟨1, 1, "b", "", "m2"⟩], [⟨1, 1, "a", "", "m1"⟩]] 2 :=
  ⟨List.Perm.swap ([⟨1, 1, "b", "", "m2"⟩] : List LogRow)
    ([⟨1, 1, "a", "", "m1"⟩] : List LogRow) [], by decide⟩

/-- Claim C9 as amended: Search is a deterministic function of the peer
responses in arrival order: it returns the first limit rows of the
concatenated responses sorted descending by timestamp, the output is
sorted descending by timestamp, its length is the smaller of limit and
the total row count, and the sort is a permutation of the concatenated
responses; tie order among equal timestamps, however, follows arrival
order and carries no further key. -/
theorem c9_agg_sorted_and_truncated (resps : List (List LogRow)) (k : Nat) :
    AggSearch resps k = (List.insertionSort aggRel resps.flatten).take k ∧
    List.Sorted aggRel (AggSearch resps k) ∧
    (AggSearch resps k).length = min k resps.flatten.length ∧
    (List.insertionSort aggRel resps.flatten).Perm resps.flatten := by
  have hperm := List.perm_insertionSort aggRel resps.flatten
  have hsorted := List.sorted_insertionSort aggRel resps.flatten
  have hlen : (List.insertionSort aggRel resps.flatten).length = resps.flatten.length :=
    hperm.length_eq
  have htake : AggSearch resps k = (List.insertionSort aggRel resps.flatten).take k := by
    unfold AggSearch
    by_cases h : resps.flatten.length > k
    · rw [if_pos h]
    · rw [if_neg h]
      rw [List.take_of_length_le (by omega)]
  refine ⟨htake, ?_, ?_, hperm⟩
  · rw [htake]
    exact hsorted.sublist (List.take_sublist k _)
  · rw [htake, List.length_take, hlen]

/-- Claim C10: a time bound of zero or below disables that bound: the
lower-bound row exclusion is false whenever MinTime is non-positive,
the upper-bound row exclusion is false whenever MaxTime is
non-positive, the file-level pruning test is false when both are
non-positive, and consequently the zero-value filter matches all rows:
the MemTable scan returns every row newest first and the segment scan
returns every stored row, including rows with zero or negative
timestamps. -/
theorem c10_nonpositive_bounds_disabled :
    (∀ (f : Filter) (ts : Int), f.MinTime ≤ 0 → timeLowExcl f ts = false) ∧
    (∀ (f : Filter) (ts : Int), f.MaxTime ≤ 0 → timeHighExcl f ts = false) ∧
    (∀ (f : Filter) (mn mx : Int), f.MinTime ≤ 0 → f.MaxTime ≤ 0 →
      fileSkip f mn mx = false) ∧
    (∀ mt : MemTable, SearchWithNanoQL mt zeroFilter .nil 0 = (mtRows mt).reverse) ∧
    (∀ fd : FileData, ScanFile fd zeroFilter = fileRows fd) := by
  refine ⟨?_, ?_, ?_, ?_, ?_⟩
  · intro f ts h
    have : ¬(f.MinTime > 0) := by omega
    simp [timeLowExcl, this]
  · intro f ts h
    have : ¬(f.MaxTime > 0) := by omega
    simp [timeHighExcl, this]
  · intro f mn mx h1 h2
    have h1n : ¬(f.MinTime > 0) := by omega
    have h2n : ¬(f.MaxTime > 0) := by omega
    simp [fileSkip, h1n, h2n]
  · intro mt
    unfold SearchWithNanoQL
    rw [searchGo_all memPass_zero]
    simp
  · intro fd
    unfold ScanFile
    rw [if_neg (by simp [fileSkip, zeroFilter])]
    exact List.filter_eq_self.mpr (fun r _ => filePass_zero r)

/-- Witness for the C10 theorem, applying each conjunct at a concrete
filter, row set and file with zero or negative bounds and timestamps. -/
theorem c10_witness :
    timeLowExcl ⟨-3, 0, 0, "", "", ""⟩ (-100) = false ∧
    timeHighExcl ⟨0, 0, 0, "", "", ""⟩ (-100) = false ∧
    fileSkip ⟨0, -1, 0, "", "", ""⟩ 100 200 = false ∧
    SearchWithNanoQL ⟨[0, -2], [1, 1], ["a", "b"], ["h", "h"], ["m", "m"]⟩
      zeroFilter .nil 0 =
      (mtRows ⟨[0, -2], [1, 1], ["a", "b"], ["h", "h"], ["m", "m"]⟩).reverse ∧
    ScanFile ⟨1, -10, -5, [-7], [1], ["s"], ["x"]⟩ zeroFilter =
      fileRows ⟨1, -10, -5, [-7], [1], ["s"], ["x"]⟩ :=
  ⟨c10_nonpositive_bounds_disabled.1 (⟨-3, 0, 0, "", "", ""⟩ : Filter) (-100) (by decide),
   c10_nonpositive_bounds_disabled.2.1 (⟨0, 0, 0, "", "", ""⟩ : Filter) (-100) (by decide),
   c10_nonpositive_bounds_disabled.2.2.1 (⟨0, -1, 0, "", "", ""⟩ : Filter) 100 200 (by decide) (by decide),
   c10_nonpositive_bounds_disabled.2.2.2.1 (⟨[0, -2], [1, 1], ["a", "b"], ["h", "h"], ["m", "m"]⟩ : MemTable),
   c10_nonpositive_bounds_disabled.2.2.2.2 (⟨1, -10, -5, [-7], [1], ["s"], ["x"]⟩ : FileData)⟩

end NL
